import Mathlib

/-!
Verification of the organism core of BioMobilityNetworks
(src/graph_evolution/organism.py) against its specification.

Conventions of the shallow embedding:
* Python floats are modelled as rationals (ℚ).
* Python exceptions are modelled by `Except String`; the string names the
  Python exception class (or message) that the interpreter would raise.
* Randomness (`random()`, `randint`, `sample`) is modelled by explicit draw
  streams `ℕ → ℚ` / `ℕ → ℕ`, consumed at explicit counters in the same order
  as the Python calls; `randint(1, s)` with a draw `k` is modelled as
  `1 + k % s` (any value in `[1, s]` is reachable), and `sample(av, 1)[0]`
  with a draw `k` as the element of `av` at position `k % av.length`.
-/

/-- Python `min(1, max(0, q))`, the clamp to `[0,1]` used by mutation. -/
def clamp01 (q : ℚ) : ℚ := min 1 (max 0 q)

/-- Python `round(x, 3)` used when the adjacency matrix is derived
(organism.py line 70).  Tie-breaking (Python rounds half-to-even on binary
floats) is not observable at any value appearing in this development. -/
def round3 (q : ℚ) : ℚ := (⌊q * 1000 + 1 / 2⌋ : ℚ) / 1000

/-- Embeds `sparsify(x, percentSparse, outputRange)` (organism.py lines
20–44).  The three asserts in the source are commented out, so no input
validation happens; when `pos + neg = 0` Python raises `ZeroDivisionError`
at `negPercent = neg/(pos+neg)`, before any branch on `x` is reached.  The
inner divisions `neg/a` and `pos/b` are only evaluated inside branches whose
guards force their denominators to be positive, so plain `ℚ` division is
faithful there. -/
def sparsifyE (x : ℚ) (percentSparse : ℚ) (outputRange : ℚ × ℚ) : Except String ℚ :=
  let percentNonZero := 1 - percentSparse
  let neg := |outputRange.1|
  let pos := outputRange.2
  if pos + neg = 0 then Except.error "ZeroDivisionError"
  else
    let negPercent := neg / (pos + neg)
    let posPercent := pos / (pos + neg)
    let a := negPercent * percentNonZero
    let b := posPercent * percentNonZero
    let t1 := a
    let t2 := a + percentSparse
    if x ≤ 0 then Except.ok (-neg)
    else if 0 < x ∧ x ≤ t1 then Except.ok ((neg / a) * x - neg)
    else if t1 < x ∧ x ≤ t2 then Except.ok 0
    else if t2 < x ∧ x ≤ 1 then Except.ok ((pos / b) * (x - t2))
    else Except.ok pos

/-- `sparsifyE` succeeds whenever the output range is non-degenerate. -/
theorem sparsifyE_isOk (x s : ℚ) (wr : ℚ × ℚ) (h : wr.2 + |wr.1| ≠ 0) :
    (sparsifyE x s wr).isOk = true := by
  simp only [sparsifyE]
  split_ifs with h0 h1 h2 h3 h4 <;> first | exact absurd h0 h | rfl

/-- C5: for every `percentSparse s ∈ [0,1]` and valid output range
(`neg0 ≤ 0 ≤ pos`, not both zero), with `t1 = negPercent·(1−s)` and
`t2 = t1 + s`: the dead-zone width `t2 − t1` is exactly `s`; every `x` in
`(t1, t2]` maps to exactly `0`; every `x ≤ 0` maps to `−|neg0|`; and every
`x > 1` maps to `pos`. -/
theorem sparsify_dead_zone_and_saturation
    (s neg0 pos x : ℚ) (hs0 : 0 ≤ s) (hs1 : s ≤ 1)
    (hneg : neg0 ≤ 0) (hpos : 0 ≤ pos) (hnd : ¬(neg0 = 0 ∧ pos = 0)) :
    ((|neg0| / (pos + |neg0|)) * (1 - s) + s) - ((|neg0| / (pos + |neg0|)) * (1 - s)) = s
    ∧ ((|neg0| / (pos + |neg0|)) * (1 - s) < x →
        x ≤ (|neg0| / (pos + |neg0|)) * (1 - s) + s →
        sparsifyE x s (neg0, pos) = Except.ok 0)
    ∧ (x ≤ 0 → sparsifyE x s (neg0, pos) = Except.ok (-|neg0|))
    ∧ (1 < x → sparsifyE x s (neg0, pos) = Except.ok pos) := by
  have habs : 0 ≤ |neg0| := abs_nonneg neg0
  have hsum : 0 < pos + |neg0| := by
    rcases lt_or_eq_of_le hpos with h | h
    · linarith
    · rcases lt_or_eq_of_le habs with h2 | h2
      · linarith
      · exfalso
        exact hnd ⟨abs_eq_zero.mp h2.symm, h.symm⟩
  have hsumne : pos + |neg0| ≠ 0 := ne_of_gt hsum
  have hnp0 : 0 ≤ |neg0| / (pos + |neg0|) := div_nonneg habs (le_of_lt hsum)
  have hnp1 : |neg0| / (pos + |neg0|) ≤ 1 := by
    rw [div_le_one hsum]; linarith
  have ht1le : (|neg0| / (pos + |neg0|)) * (1 - s) ≤ 1 := by
    calc (|neg0| / (pos + |neg0|)) * (1 - s) ≤ 1 * (1 - s) := by
          apply mul_le_mul_of_nonneg_right hnp1; linarith
      _ ≤ 1 := by linarith
  have ht2le : (|neg0| / (pos + |neg0|)) * (1 - s) + s ≤ 1 := by
    have : (|neg0| / (pos + |neg0|)) * (1 - s) ≤ 1 * (1 - s) := by
      apply mul_le_mul_of_nonneg_right hnp1; linarith
    linarith
  have ht10 : 0 ≤ (|neg0| / (pos + |neg0|)) * (1 - s) := by
    apply mul_nonneg hnp0; linarith
  refine ⟨by ring, ?_, ?_, ?_⟩
  · intro hlo hhi
    simp only [sparsifyE]
    split_ifs with h0 h1 h2 h3 h4
    · exact absurd h0 hsumne
    · exfalso; linarith
    · exfalso; exact absurd h2.2 (not_le.mpr hlo)
    · rfl
    · exact absurd ⟨hlo, hhi⟩ h3
    · exact absurd ⟨hlo, hhi⟩ h3
  · intro hx
    simp only [sparsifyE]
    split_ifs with h0
    · exact absurd h0 hsumne
    · rfl
  · intro hx
    simp only [sparsifyE]
    split_ifs with h0 h1 h2 h3 h4
    · exact absurd h0 hsumne
    · exfalso; linarith
    · exfalso; linarith [h2.2]
    · exfalso; linarith [h3.2]
    · exfalso; linarith [h4.2]
    · rfl

/-- C5 witness: concrete instance with `s = 1/2`, range `(−1, 1)`, so
`t1 = 1/4`, `t2 = 3/4`: the dead zone sends `1/2` to `0`, `−1` saturates to
`−1`, and `2` saturates to `1`. -/
theorem sparsify_dead_zone_and_saturation_witness :
    sparsifyE (1/2) (1/2) (-1, 1) = Except.ok 0
    ∧ sparsifyE (-1) (1/2) (-1, 1) = Except.ok (-|(-1 : ℚ)|)
    ∧ sparsifyE 2 (1/2) (-1, 1) = Except.ok 1 := by
  have h := sparsify_dead_zone_and_saturation (1/2) (-1) 1 (1/2)
    (by norm_num) (by norm_num) (by norm_num) (by norm_num) (by norm_num)
  have h2 := sparsify_dead_zone_and_saturation (1/2) (-1) 1 (-1)
    (by norm_num) (by norm_num) (by norm_num) (by norm_num) (by norm_num)
  have h3 := sparsify_dead_zone_and_saturation (1/2) (-1) 1 2
    (by norm_num) (by norm_num) (by norm_num) (by norm_num) (by norm_num)
  exact ⟨h.2.1 (by norm_num) (by norm_num), h2.2.2.1 (by norm_num), h3.2.2.2 (by norm_num)⟩

/-- Applies `sparsify` then `round(·, 3)` to one genome row, as in the
adjacency comprehension (organism.py line 70); the first raising entry
aborts the row, as in Python. -/
def mapRowE (s : ℚ) (wr : ℚ × ℚ) : List ℚ → Except String (List ℚ)
  | [] => Except.ok []
  | v :: rest =>
      match sparsifyE v s wr with
      | Except.error e => Except.error e
      | Except.ok w =>
          match mapRowE s wr rest with
          | Except.error e => Except.error e
          | Except.ok ws => Except.ok (round3 w :: ws)

/-- Row-by-row adjacency derivation (organism.py line 70). -/
def mapRowsE (s : ℚ) (wr : ℚ × ℚ) : List (List ℚ) → Except String (List (List ℚ))
  | [] => Except.ok []
  | r :: rs =>
      match mapRowE s wr r with
      | Except.error e => Except.error e
      | Except.ok r' =>
          match mapRowsE s wr rs with
          | Except.error e => Except.error e
          | Except.ok rs' => Except.ok (r' :: rs')

/-- The Organism entity (organism.py lines 47–81): the structural fields
set by `__init__`.  The process-wide `id` counter and the `nsga_rank` /
`nsga_distance` slots (written only by the external selection loop) and the
lazily-populated `errors` / `properties` caches are not structural and are
modelled separately where a claim needs them. -/
structure Organism where
  numNodes : ℕ
  sparsity : ℚ
  weightRange : ℚ × ℚ
  genotypeMatrix : List (List ℚ)
  adjacencyMatrix : List (List ℚ)
  age : ℕ
  clock : ℤ
  valid : Bool
  numInteractions : ℕ
  numPositive : ℕ
  numNegative : ℕ
  deriving DecidableEq, Repr

/-- Embeds `Organism.__init__` (organism.py lines 50–81) on an explicitly
given genome (the `genome is None` branch draws a fresh `numNodes × numNodes`
uniform matrix; claims about it are stated with that shape as a hypothesis).
The adjacency matrix is derived entrywise by `round(sparsify(val, sparsity,
weightRange), 3)`; `valid` starts `True`; the three interaction counts are
cached from the adjacency matrix.  No validation of any argument is
performed, exactly as in the source. -/
def mkOrganism (numNodes : ℕ) (sparsity : ℚ) (weightRange : ℚ × ℚ)
    (genome : List (List ℚ)) (age : ℕ) : Except String Organism :=
  match mapRowsE sparsity weightRange genome with
  | Except.error e => Except.error e
  | Except.ok adj =>
      Except.ok
        { numNodes := numNodes
          sparsity := sparsity
          weightRange := weightRange
          genotypeMatrix := genome
          adjacencyMatrix := adj
          age := age
          clock := -1
          valid := true
          numInteractions := (adj.map (fun row => row.countP (fun v => decide (v ≠ 0)))).sum
          numPositive := (adj.map (fun row => row.countP (fun v => decide (0 < v)))).sum
          numNegative := (adj.map (fun row => row.countP (fun v => decide (v < 0)))).sum }

/-- C4 counterexample: constructing a 1-node organism with the degenerate
`weightRange (0, 0)` does not produce an invalid-configuration rejection:
it fails with the `ZeroDivisionError` raised inside `sparsify` (at
`negPercent = neg/(pos+neg)`) while the adjacency matrix is being derived. -/
theorem degenerate_range_not_rejected :
    mkOrganism 1 (1/2) (0, 0) [[1/2]] 0 = Except.error "ZeroDivisionError" := by
  have hx : sparsifyE (1/2) (1/2) (0, 0) = Except.error "ZeroDivisionError" := by
    simp [sparsifyE]
  have h1 : mapRowsE (1/2) (0, 0) [[(1:ℚ)/2]] = Except.error "ZeroDivisionError" := by
    simp only [mapRowsE, mapRowE, hx]
  simp only [mkOrganism, h1]

/-- C4 amended: `Organism.__init__` performs no `weightRange` validation;
with both bounds zero and any genome having at least one entry, construction
fails with a `ZeroDivisionError` raised deep inside the `sparsify`
transform (not an invalid-configuration error). -/
theorem degenerate_range_fails_inside_sparsify
    (n : ℕ) (s : ℚ) (x : ℚ) (r : List ℚ) (g' : List (List ℚ)) (a : ℕ) :
    mkOrganism n s (0, 0) ((x :: r) :: g') a = Except.error "ZeroDivisionError" := by
  have hx : sparsifyE x s (0, 0) = Except.error "ZeroDivisionError" := by
    simp [sparsifyE]
  have h1 : mapRowsE s (0, 0) ((x :: r) :: g') = Except.error "ZeroDivisionError" := by
    simp only [mapRowsE, mapRowE, hx]
  simp only [mkOrganism, h1]

/-- Embeds the paired-statistic branch of `getError` (organism.py lines
196–205), taken when `propertyName` is `"topology"` or `"weights"`: the
cached property value is the `(mean, std)` pair and `target` is a scalar.
Python computes `std_error = (std - _range)**2` unconditionally, so when the
optional `_range` is omitted (`None`) the subtraction raises `TypeError`
before any error is stored and before any feasibility check runs.  The
returned `Bool` records whether `check_constraint` (the Gaussian-overlap
test) was invoked, which the guard `_range is not None` makes equivalent to
`_range` being present. -/
def getErrorPaired (mean std target : ℚ) (rng : Option ℚ) : Except String (ℚ × Bool) :=
  match rng with
  | none => Except.error "TypeError"
  | some r =>
      let mean_error := (mean - target) ^ 2
      let std_error := (std - r) ^ 2
      Except.ok (mean_error + std_error, true)

/-- C3 counterexample: on the paired-statistic branch with `range` omitted,
`getError` does not return the error value — it raises a `TypeError`
(`(std - None)**2`), and no feasibility test is invoked. -/
theorem getError_paired_none_raises :
    getErrorPaired 0 0 0 none = Except.error "TypeError" := rfl

/-- C3 amended: on the paired-statistic branch (`"topology"`, `"weights"`),
when `range` is provided `getError` returns the squared difference of the
means plus the squared difference of the stds and invokes the
Gaussian-overlap feasibility test; when `range` is omitted it fails with a
`TypeError` instead of computing any error. -/
theorem getError_paired_requires_range (mean std target r : ℚ) :
    getErrorPaired mean std target (some r)
      = Except.ok ((mean - target) ^ 2 + (std - r) ^ 2, true)
    ∧ getErrorPaired mean std target none = Except.error "TypeError" :=
  ⟨rfl, rfl⟩

/-- Embeds the weighted-choice branch chain of `makeMutatedCopy`
(organism.py lines 85–112): `mutationThresholds[k]` is the sum of the first
`k+1` odds; a draw `t` selects `some 0` (point), `some 1` (offset),
`some 2` (sign flip) or `some 3` (weight swap) by the first threshold at or
above it, and `none` stands for the fallback `print`/`exit(1)` branch. -/
def selectMutationOp (odds : List ℕ) (t : ℕ) : Option ℕ :=
  if t ≤ (odds.take 1).sum then some 0
  else if t ≤ (odds.take 2).sum then some 1
  else if t ≤ (odds.take 3).sum then some 2
  else if t ≤ (odds.take 4).sum then some 3
  else none

/-- C9: for a 4-tuple of non-negative mutation odds with positive sum, every
draw of `randint(1, sum(mutationOdds))` lies at or below the last cumulative
threshold, so one of the four operator branches is always selected and the
fallback branch is unreachable. -/
theorem mutation_fallback_unreachable (a b c d t : ℕ)
    (hpos : 0 < a + b + c + d) (h1 : 1 ≤ t) (ht : t ≤ a + b + c + d) :
    t ≤ ([a, b, c, d].take 4).sum
    ∧ (selectMutationOp [a, b, c, d] t).isSome = true := by
  have h4 : ([a, b, c, d].take 4).sum = a + b + c + d := by simp <;> omega
  refine ⟨by rw [h4]; exact ht, ?_⟩
  simp only [selectMutationOp]
  split_ifs with k1 k2 k3 k4
  · rfl
  · rfl
  · rfl
  · rfl
  · rw [h4] at k4; omega

/-- C9 witness: odds `(1,1,1,1)` and the maximal draw `4` select the weight
swap operator, not the fallback. -/
theorem mutation_fallback_unreachable_witness :
    (0 < 1 + 1 + 1 + 1 ∧ 1 ≤ 4 ∧ 4 ≤ 1 + 1 + 1 + 1)
    ∧ (selectMutationOp [1, 1, 1, 1] 4).isSome = true :=
  ⟨⟨by decide, by decide, by decide⟩,
    (mutation_fallback_unreachable 1 1 1 1 4 (by decide) (by decide) (by decide)).2⟩

/-- Embeds `check_constraints_distribution` (organism.py lines 272–281) as a
pure update of the `valid` flag: the result is the new flag value.  Python
indexes `mean[i]` / `std[i]` in step with `dist`; the model reads them with
`getD 0`, which agrees for the equal-length sequences the caller supplies.
The ratio `num_invalid / len(dist)` is rational division (Python would raise
`ZeroDivisionError` for an empty distribution; no claim exercises that). -/
def check_constraints_distribution (dist mean std : List ℚ) (eps : ℚ) (valid : Bool) : Bool :=
  let sigma : ℚ := 2
  let numInvalid := ((List.range dist.length).filter (fun i =>
      decide (dist.getD i 0 < mean.getD i 0 - sigma * std.getD i 0) ||
      decide (mean.getD i 0 + sigma * std.getD i 0 < dist.getD i 0))).length
  if (numInvalid : ℚ) / (dist.length : ℚ) > eps then false else valid

/-- Embeds `check_constraint` (organism.py lines 312–319) as a pure update
of the `valid` flag.  The intersection area of the two implied normal
densities is obtained by numeric integration (`scipy.integrate.quad` over
the `min` of the two pdfs) and is not expressible over ℚ; it influences the
flag only through the resulting scalar, which is therefore an input `area`
here.  `iou = area / (2 - area)`; the flag is cleared when `iou < eps`. -/
def check_constraint (area : ℚ) (eps : ℚ) (valid : Bool) : Bool :=
  let iou := area / (2 - area)
  if iou < eps then false else valid

/-- C8: the `valid` flag starts `true` at construction, and each of the two
ConstraintValidator tests either leaves the flag unchanged or sets it to
`false` — neither can ever produce `true` from `false`. -/
theorem valid_starts_true_and_is_monotone :
    (∀ n s wr g a, (mkOrganism n s wr g a).map Organism.valid ≠ Except.ok false)
    ∧ (∀ dist mean std eps v,
        check_constraints_distribution dist mean std eps v = v
        ∨ check_constraints_distribution dist mean std eps v = false)
    ∧ (∀ area eps v, check_constraint area eps v = v ∨ check_constraint area eps v = false) := by
  refine ⟨?_, ?_, ?_⟩
  · intro n s wr g a
    unfold mkOrganism
    rcases hm : mapRowsE s wr g with e | adj <;> simp [Except.map]
  · intro dist mean std eps v
    simp only [check_constraints_distribution]
    split_ifs
    · exact Or.inr rfl
    · exact Or.inl rfl
  · intro area eps v
    simp only [check_constraint]
    split_ifs
    · exact Or.inr rfl
    · exact Or.inl rfl

deriving instance DecidableEq for Except

/-- `mapRowE` preserves row length. -/
theorem mapRowE_length (s : ℚ) (wr : ℚ × ℚ) :
    ∀ (r r' : List ℚ), mapRowE s wr r = Except.ok r' → r'.length = r.length := by
  intro r
  induction r with
  | nil =>
      intro r' h
      simp only [mapRowE] at h
      cases h
      rfl
  | cons v rest ih =>
      intro r' h
      simp only [mapRowE] at h
      rcases hsv : sparsifyE v s wr with e | w <;> rw [hsv] at h
      · simp at h
      · rcases hrest : mapRowE s wr rest with e2 | ws <;> rw [hrest] at h
        · simp at h
        · simp only [Except.ok.injEq] at h
          subst h
          simp [ih ws hrest]

/-- `mapRowsE` preserves the number of rows and each row's length. -/
theorem mapRowsE_shape (s : ℚ) (wr : ℚ × ℚ) :
    ∀ (g adj : List (List ℚ)), mapRowsE s wr g = Except.ok adj →
      adj.length = g.length ∧ ∀ r' ∈ adj, ∃ r ∈ g, r'.length = r.length := by
  intro g
  induction g with
  | nil =>
      intro adj h
      simp only [mapRowsE] at h
      cases h
      exact ⟨rfl, by simp⟩
  | cons r rs ih =>
      intro adj h
      simp only [mapRowsE] at h
      rcases hr : mapRowE s wr r with e | r' <;> rw [hr] at h
      · simp at h
      · rcases hrs : mapRowsE s wr rs with e2 | rs' <;> rw [hrs] at h
        · simp at h
        · simp only [Except.ok.injEq] at h
          subst h
          obtain ⟨hlen, hmem⟩ := ih rs' hrs
          refine ⟨by simp [hlen], ?_⟩
          intro row hrow
          rcases List.mem_cons.mp hrow with h3 | h3
          · exact ⟨r, List.mem_cons_self r rs, by rw [h3]; exact mapRowE_length s wr r r' hr⟩
          · obtain ⟨r0, hr0, hl⟩ := hmem row h3
            exact ⟨r0, List.mem_cons_of_mem _ hr0, hl⟩

/-- In one row, every nonzero rational is counted exactly once as positive
or negative. -/
theorem countP_sign_split (row : List ℚ) :
    row.countP (fun v => decide (v ≠ 0))
      = row.countP (fun v => decide (0 < v)) + row.countP (fun v => decide (v < 0)) := by
  induction row with
  | nil => rfl
  | cons v rest ih =>
      simp only [List.countP_cons, ih]
      rcases lt_trichotomy v 0 with h | h | h
      · have h1 : v ≠ 0 := ne_of_lt h
        have h2 : ¬(0 < v) := by linarith
        simp [h1, h2, h]
        omega
      · simp [h]
      · have h1 : v ≠ 0 := ne_of_gt h
        have h2 : ¬(v < 0) := by linarith
        simp [h1, h2, h]
        omega

/-- Summed over the matrix, the nonzero count splits into positive plus
negative. -/
theorem counts_sum_split (adj : List (List ℚ)) :
    (adj.map (fun row => row.countP (fun v => decide (v ≠ 0)))).sum
      = (adj.map (fun row => row.countP (fun v => decide (0 < v)))).sum
        + (adj.map (fun row => row.countP (fun v => decide (v < 0)))).sum := by
  induction adj with
  | nil => rfl
  | cons r rs ih =>
      simp only [List.map_cons, List.sum_cons]
      rw [countP_sign_split r, ih]
      ring

/-- A per-row count over an `m × n` matrix is at most `m * n`. -/
theorem sum_counts_le (p : ℚ → Bool) (n : ℕ) :
    ∀ (adj : List (List ℚ)), (∀ r ∈ adj, r.length = n) →
      (adj.map (fun row => row.countP p)).sum ≤ adj.length * n := by
  intro adj
  induction adj with
  | nil => simp
  | cons r rs ih =>
      intro h
      simp only [List.map_cons, List.sum_cons, List.length_cons]
      have h1 : r.countP p ≤ n := by
        rw [← h r (List.mem_cons_self r rs)]
        exact List.countP_le_length p
      have h2 := ih (fun r0 hr0 => h r0 (List.mem_cons_of_mem _ hr0))
      calc r.countP p + (rs.map (fun row => row.countP p)).sum
          ≤ n + rs.length * n := by omega
        _ = (rs.length + 1) * n := by ring

/-- C10: at construction with an `n × n` genome, the cached counts satisfy
`numInteractions = numPositive + numNegative`, and each count is at most
`n²` (it is a ℕ, hence at least 0): every nonzero adjacency entry is counted
exactly once as positive or negative. -/
theorem organism_counts_consistent (n : ℕ) (s : ℚ) (wr : ℚ × ℚ)
    (g : List (List ℚ)) (a : ℕ) (org : Organism)
    (hrows : g.length = n) (hcols : ∀ row ∈ g, row.length = n)
    (hok : mkOrganism n s wr g a = Except.ok org) :
    org.numInteractions = org.numPositive + org.numNegative
    ∧ org.numInteractions ≤ n * n ∧ org.numPositive ≤ n * n ∧ org.numNegative ≤ n * n := by
  unfold mkOrganism at hok
  split at hok
  · simp at hok
  next adj hm =>
    injection hok with h2
    subst h2
    obtain ⟨hlen, hmem⟩ := mapRowsE_shape s wr g adj hm
    have hrows' : ∀ r' ∈ adj, r'.length = n := by
      intro r' hr'
      obtain ⟨r0, hr0, hl⟩ := hmem r' hr'
      rw [hl]
      exact hcols r0 hr0
    have hadj : adj.length = n := by rw [hlen, hrows]
    refine ⟨counts_sum_split adj, ?_, ?_, ?_⟩
    · have := sum_counts_le (fun v => decide (v ≠ 0)) n adj hrows'
      rwa [hadj] at this
    · have := sum_counts_le (fun v => decide (0 < v)) n adj hrows'
      rwa [hadj] at this
    · have := sum_counts_le (fun v => decide (v < 0)) n adj hrows'
      rwa [hadj] at this

/-- The organism produced by `mkOrganism 1 0 (-1, 1) [[1/2]] 0`: the single
genome entry `1/2` lies on the negative ramp (`t1 = 1/2`) and maps to `0`. -/
def c10Org : Organism :=
  { numNodes := 1
    sparsity := 0
    weightRange := (-1, 1)
    genotypeMatrix := [[1/2]]
    adjacencyMatrix := [[0]]
    age := 0
    clock := -1
    valid := true
    numInteractions := 0
    numPositive := 0
    numNegative := 0 }

/-- Evaluation: the single genome entry `1/2` at sparsity `0` lies on the
negative ramp (`t1 = 1/2`) and maps to `(1/(1/2))·(1/2) − 1 = 0`. -/
theorem sparsifyE_half_s0 : sparsifyE (1/2) 0 (-1, 1) = Except.ok 0 := by
  simp only [sparsifyE]
  norm_num

/-- Evaluation: the adjacency matrix of `c10Org`. -/
theorem mapRowsE_c10 : mapRowsE 0 (-1, 1) [[(1:ℚ)/2]] = Except.ok [[0]] := by
  simp only [mapRowsE, mapRowE, sparsifyE_half_s0]
  norm_num [round3]

/-- Evaluation: constructing `c10Org`. -/
theorem mkOrganism_c10_eval : mkOrganism 1 0 (-1, 1) [[1/2]] 0 = Except.ok c10Org := by
  simp only [mkOrganism, mapRowsE_c10, c10Org, Except.ok.injEq, Organism.mk.injEq]
  norm_num

/-- C10 witness: the count consistency holds on the concrete 1-node
organism `c10Org`. -/
theorem organism_counts_consistent_witness :
    (([[(1:ℚ)/2]] : List (List ℚ)).length = 1
      ∧ (∀ row ∈ ([[(1:ℚ)/2]] : List (List ℚ)), row.length = 1)
      ∧ mkOrganism 1 0 (-1, 1) [[1/2]] 0 = Except.ok c10Org)
    ∧ (c10Org.numInteractions = c10Org.numPositive + c10Org.numNegative
      ∧ c10Org.numInteractions ≤ 1 * 1 ∧ c10Org.numPositive ≤ 1 * 1
      ∧ c10Org.numNegative ≤ 1 * 1) :=
  ⟨⟨by decide, by decide, mkOrganism_c10_eval⟩,
    organism_counts_consistent 1 0 (-1, 1) [[1/2]] 0 c10Org
      (by decide) (by decide) mkOrganism_c10_eval⟩

/-- Embeds the loop of `__gt__` (organism.py lines 256–266).  Iteration is
over `self.errors`' keys; both organisms are assumed to share the same
evaluated keys (as the spec states), so the shared list `keys` stands for
`self.errors` and `eA` / `eB` give each organism's cached error per key.
`acc` is the `someSelfBetter` accumulator; a strictly worse key returns
`False` immediately ('better' means the smaller error). -/
def paretoGtAux (eA eB : String → ℚ) : List String → Bool → Bool
  | [], acc => acc
  | k :: rest, acc =>
      if eA k > eB k then false
      else if eA k < eB k then paretoGtAux eA eB rest true
      else paretoGtAux eA eB rest acc

/-- `self > other` (organism.py lines 256–266): `someSelfBetter` starts
`False`. -/
def paretoGt (keys : List String) (eA eB : String → ℚ) : Bool :=
  paretoGtAux eA eB keys false

/-- Embeds `__eq__` (organism.py lines 269–270):
`not (self < other or self > other)`, where Python resolves `self < other`
by the reflected comparison `other.__gt__(self)`. -/
def paretoEq (keys : List String) (eA eB : String → ℚ) : Bool :=
  !(paretoGt keys eB eA || paretoGt keys eA eB)

/-- Semantic characterisation of the `__gt__` loop: it yields `True` iff no
key is strictly worse and the accumulator was already set or some key is
strictly better. -/
theorem paretoGtAux_eq_true (eA eB : String → ℚ) :
    ∀ (keys : List String) (acc : Bool),
      paretoGtAux eA eB keys acc = true
        ↔ (∀ k ∈ keys, eA k ≤ eB k) ∧ (acc = true ∨ ∃ k ∈ keys, eA k < eB k) := by
  intro keys
  induction keys with
  | nil =>
      intro acc
      simp [paretoGtAux]
  | cons k rest ih =>
      intro acc
      simp only [paretoGtAux]
      split_ifs with h1 h2
      · simp only [Bool.false_eq_true, false_iff]
        rintro ⟨hall, _⟩
        exact absurd (hall k (List.mem_cons_self k rest)) (not_le.mpr h1)
      · rw [ih true]
        constructor
        · rintro ⟨hall, _⟩
          refine ⟨fun k0 hk0 => ?_, Or.inr ⟨k, List.mem_cons_self k rest, h2⟩⟩
          rcases List.mem_cons.mp hk0 with rfl | h0
          · exact le_of_lt h2
          · exact hall k0 h0
        · rintro ⟨hall, _⟩
          exact ⟨fun k0 hk0 => hall k0 (List.mem_cons_of_mem _ hk0), Or.inl rfl⟩
      · have heq : eA k = eB k := le_antisymm (not_lt.mp h1) (not_lt.mp h2)
        rw [ih acc]
        constructor
        · rintro ⟨hall, hsome⟩
          refine ⟨fun k0 hk0 => ?_, ?_⟩
          · rcases List.mem_cons.mp hk0 with rfl | h0
            · exact le_of_eq heq
            · exact hall k0 h0
          · rcases hsome with h | ⟨k0, hk0, hlt⟩
            · exact Or.inl h
            · exact Or.inr ⟨k0, List.mem_cons_of_mem _ hk0, hlt⟩
        · rintro ⟨hall, hsome⟩
          refine ⟨fun k0 hk0 => hall k0 (List.mem_cons_of_mem _ hk0), ?_⟩
          rcases hsome with h | ⟨k0, hk0, hlt⟩
          · exact Or.inl h
          · rcases List.mem_cons.mp hk0 with rfl | h0
            · rw [heq] at hlt
              exact absurd hlt (lt_irrefl _)
            · exact Or.inr ⟨k0, h0, hlt⟩

/-- C6: over a shared key set, Pareto dominance (`__gt__`) is irreflexive
(no organism beats itself) and antisymmetric (if A beats B then B does not
beat A), and two organisms with identical error maps are equivalent under
the overloaded `__eq__`. -/
theorem pareto_dominance_properties (keys : List String) (eA eB : String → ℚ) :
    paretoGt keys eA eA = false
    ∧ (paretoGt keys eA eB = true → paretoGt keys eB eA = false)
    ∧ ((∀ k ∈ keys, eA k = eB k) → paretoEq keys eA eB = true) := by
  have notGt : ∀ (f g : String → ℚ), (∀ k ∈ keys, ¬(f k < g k)) → paretoGt keys f g = false := by
    intro f g hno
    cases hb : paretoGt keys f g with
    | false => rfl
    | true =>
        exfalso
        obtain ⟨_, hsome⟩ := (paretoGtAux_eq_true f g keys false).mp hb
        rcases hsome with h | ⟨k0, hk0, hlt⟩
        · simp at h
        · exact hno k0 hk0 hlt
  refine ⟨?_, ?_, ?_⟩
  · exact notGt eA eA (fun k _ => lt_irrefl _)
  · intro hab
    obtain ⟨hall, _⟩ := (paretoGtAux_eq_true eA eB keys false).mp hab
    exact notGt eB eA (fun k hk => not_lt.mpr (hall k hk))
  · intro hiden
    unfold paretoEq
    rw [notGt eB eA (fun k hk => by rw [hiden k hk]; exact lt_irrefl _),
        notGt eA eB (fun k hk => by rw [hiden k hk]; exact lt_irrefl _)]
    rfl

/-- C6 witness: on the single key `"a"`, errors `1` vs `2`: A beats B, B
does not beat A, and identical maps `1`,`1` are equivalent. -/
theorem pareto_dominance_properties_witness :
    paretoGt ["a"] (fun _ => (1:ℚ)) (fun _ => 2) = true
    ∧ paretoGt ["a"] (fun _ => (2:ℚ)) (fun _ => 1) = false
    ∧ paretoEq ["a"] (fun _ => (1:ℚ)) (fun _ => 1) = true := by
  have hgt : paretoGt ["a"] (fun _ => (1:ℚ)) (fun _ => 2) = true := by decide
  exact ⟨hgt,
    (pareto_dominance_properties ["a"] (fun _ => 1) (fun _ => 2)).2.1 hgt,
    (pareto_dominance_properties ["a"] (fun _ => 1) (fun _ => 1)).2.2 (fun _ _ => rfl)⟩

/-- Read of `newGenome[i][j]`.  Python would raise `IndexError` out of
range; the mutation loop only uses indices below `numNodes`, which are in
range for the square genomes organisms carry, so a total `getD` read is
faithful there. -/
def get2 (g : List (List ℚ)) (i j : ℕ) : ℚ := (g.getD i []).getD j 0

/-- Write of `newGenome[i][j] = v`, total for the same reason as `get2`
(`List.set` is the identity out of range). -/
def set2 (g : List (List ℚ)) (i j : ℕ) (v : ℚ) : List (List ℚ) :=
  g.set i ((g.getD i []).set j v)

/-- Row-major cell order of the double mutation loop
(`for i in range(numNodes): for j in range(numNodes)`). -/
def cellIndices (n : ℕ) : List (ℕ × ℕ) :=
  (List.range n).flatMap (fun i => (List.range n).map (fun j => (i, j)))

/-- Embeds the body of `makeMutatedCopy`'s double loop for one cell
(organism.py lines 91–112).  State is `(genome, float-draw counter,
int-draw counter)`.  The guard `random() <= mutationRate` always consumes
one float draw; `randint(1, sum(mutationOdds))` (a `ValueError` when the
odds sum to zero) and the operator branches consume further draws exactly
as Python does.  The `print`/`exit(1)` fallback is the final error. -/
def mutateCell (rate : ℚ) (odds : List ℕ) (fs : ℕ → ℚ) (ints : ℕ → ℕ) (n : ℕ)
    (i j : ℕ) (st : List (List ℚ) × ℕ × ℕ) : Except String (List (List ℚ) × ℕ × ℕ) :=
  let g := st.1
  let fi := st.2.1
  let ii := st.2.2
  if fs fi ≤ rate then
    if odds.sum = 0 then Except.error "ValueError"
    else
      let t := 1 + ints ii % odds.sum
      if t ≤ (odds.take 1).sum then
        Except.ok (set2 g i j (fs (fi + 1)), fi + 2, ii + 1)
      else if t ≤ (odds.take 2).sum then
        let offset := fs (fi + 1) / 4 - 1 / 8
        Except.ok (set2 g i j (clamp01 (get2 g i j + offset)), fi + 2, ii + 1)
      else if t ≤ (odds.take 3).sum then
        Except.ok (set2 g i j (1 - get2 g i j), fi + 1, ii + 1)
      else if t ≤ (odds.take 4).sum then
        let iswap := ints (ii + 1) % n
        let jswap := ints (ii + 2) % n
        let edge1 := get2 g i j
        let g1 := set2 g i j (get2 g iswap jswap)
        Except.ok (set2 g1 iswap jswap edge1, fi + 1, ii + 3)
      else Except.error "ERROR: no mutation selected"
  else Except.ok (g, fi + 1, ii)

/-- Folds `mutateCell` over the row-major cell list. -/
def mutateCells (rate : ℚ) (odds : List ℕ) (fs : ℕ → ℚ) (ints : ℕ → ℕ) (n : ℕ) :
    List (ℕ × ℕ) → (List (List ℚ) × ℕ × ℕ) → Except String (List (List ℚ) × ℕ × ℕ)
  | [], st => Except.ok st
  | ij :: rest, st =>
      match mutateCell rate odds fs ints n ij.1 ij.2 st with
      | Except.error e => Except.error e
      | Except.ok st' => mutateCells rate odds fs ints n rest st'

/-- Embeds `makeMutatedCopy` (organism.py lines 83–115): mutate a deep copy
of the genome cell by cell, then with one more draw decide whether sparsity
drifts (`min(1, max(0, sparsity + random()/4 - 1/8))`), and build the child
with the parent's `numNodes`, `weightRange` and unchanged `age`. -/
def makeMutatedCopy (o : Organism) (rate : ℚ) (odds : List ℕ)
    (fs : ℕ → ℚ) (ints : ℕ → ℕ) : Except String Organism :=
  match mutateCells rate odds fs ints o.numNodes (cellIndices o.numNodes)
      (o.genotypeMatrix, 0, 0) with
  | Except.error e => Except.error e
  | Except.ok st =>
      let newSparsity :=
        if fs st.2.1 > rate then o.sparsity
        else clamp01 (o.sparsity + fs (st.2.1 + 1) / 4 - 1 / 8)
      mkOrganism o.numNodes newSparsity o.weightRange st.1 o.age

/-- A cell whose mutation guard fails is left untouched; only the float
counter advances. -/
theorem mutateCell_skip (rate : ℚ) (odds : List ℕ) (fs : ℕ → ℚ) (ints : ℕ → ℕ)
    (n i j : ℕ) (g : List (List ℚ)) (fi ii : ℕ) (h : rate < fs fi) :
    mutateCell rate odds fs ints n i j (g, fi, ii) = Except.ok (g, fi + 1, ii) := by
  simp only [mutateCell]
  rw [if_neg (not_le.mpr h)]

/-- When every guard draw exceeds the rate, the whole cell loop leaves the
genome untouched and advances the float counter once per cell. -/
theorem mutateCells_skip (rate : ℚ) (odds : List ℕ) (fs : ℕ → ℚ) (ints : ℕ → ℕ)
    (n : ℕ) (hfs : ∀ k, rate < fs k) :
    ∀ (idxs : List (ℕ × ℕ)) (g : List (List ℚ)) (fi ii : ℕ),
      mutateCells rate odds fs ints n idxs (g, fi, ii)
        = Except.ok (g, fi + idxs.length, ii) := by
  intro idxs
  induction idxs with
  | nil => intro g fi ii; simp [mutateCells]
  | cons ij rest ih =>
      intro g fi ii
      simp only [mutateCells]
      rw [mutateCell_skip rate odds fs ints n ij.1 ij.2 g fi ii (hfs fi)]
      show mutateCells rate odds fs ints n rest (g, fi + 1, ii)
        = Except.ok (g, fi + (ij :: rest).length, ii)
      rw [ih g (fi + 1) ii]
      have h2 : fi + 1 + rest.length = fi + (ij :: rest).length := by
        simp [List.length_cons]
        omega
      rw [h2]

/-- `mkOrganism` copies its arguments into the structural fields. -/
theorem mkOrganism_fields (n : ℕ) (s : ℚ) (wr : ℚ × ℚ) (g : List (List ℚ))
    (a : ℕ) (org : Organism) (h : mkOrganism n s wr g a = Except.ok org) :
    org.numNodes = n ∧ org.sparsity = s ∧ org.weightRange = wr
    ∧ org.genotypeMatrix = g ∧ org.age = a ∧ org.clock = -1 ∧ org.valid = true := by
  unfold mkOrganism at h
  split at h
  · simp at h
  · injection h with h2
    subst h2
    exact ⟨rfl, rfl, rfl, rfl, rfl, rfl, rfl⟩

/-- C7 amended: with `mutationRate = 0` and every uniform draw strictly
positive (`random()` returns 0.0 with probability zero but CAN return it,
see the counterexample), `makeMutatedCopy` returns a child whose genome is
value-for-value identical to the parent's, whose sparsity equals the
parent's, and whose age equals the parent's (and the parent itself is not
modified, mutation being a pure construction of a new organism). -/
theorem mutate_rate_zero (o : Organism) (odds : List ℕ) (fs : ℕ → ℚ) (ints : ℕ → ℕ)
    (hfs : ∀ k, 0 < fs k) (org' : Organism)
    (hok : makeMutatedCopy o 0 odds fs ints = Except.ok org') :
    org'.genotypeMatrix = o.genotypeMatrix ∧ org'.sparsity = o.sparsity
    ∧ org'.age = o.age := by
  unfold makeMutatedCopy at hok
  rw [mutateCells_skip 0 odds fs ints o.numNodes hfs (cellIndices o.numNodes)
      o.genotypeMatrix 0 0] at hok
  have hok2 : mkOrganism o.numNodes
      (if fs (0 + (cellIndices o.numNodes).length) > 0 then o.sparsity
        else clamp01 (o.sparsity + fs (0 + (cellIndices o.numNodes).length + 1) / 4 - 1 / 8))
      o.weightRange o.genotypeMatrix o.age = Except.ok org' := hok
  rw [if_pos (hfs _)] at hok2
  obtain ⟨_, h2, _, h4, h5, _, _⟩ := mkOrganism_fields _ _ _ _ _ _ hok2
  exact ⟨h4, h2, h5⟩

/-- Evaluation: genome entry `1/2` at sparsity `1/2` falls in the dead zone
`(1/4, 3/4]`. -/
theorem sparsifyE_half_mid : sparsifyE (1/2) (1/2) (-1, 1) = Except.ok 0 := by
  simp only [sparsifyE]
  norm_num

/-- A concrete 1-node parent organism (genome `[[1/2]]`, sparsity `1/2`,
weight range `(−1, 1)`, age `3`); its single adjacency entry is `0` since
`1/2` falls in the dead zone. -/
def c7Parent : Organism :=
  { numNodes := 1
    sparsity := 1/2
    weightRange := (-1, 1)
    genotypeMatrix := [[1/2]]
    adjacencyMatrix := [[0]]
    age := 3
    clock := -1
    valid := true
    numInteractions := 0
    numPositive := 0
    numNegative := 0 }

/-- Evaluation: rebuilding `c7Parent`'s structure from its own genome. -/
theorem mkOrganism_c7_eval : mkOrganism 1 (1/2) (-1, 1) [[1/2]] 3 = Except.ok c7Parent := by
  have hmap : mapRowsE (1/2) (-1, 1) [[(1:ℚ)/2]] = Except.ok [[0]] := by
    simp only [mapRowsE, mapRowE, sparsifyE_half_mid]
    norm_num [round3]
  simp only [mkOrganism, hmap, c7Parent, Except.ok.injEq, Organism.mk.injEq]
  norm_num

/-- C7 witness: on `c7Parent` with every draw `1/2 > 0`, mutation at rate
`0` returns a child identical to the parent in genome, sparsity and age. -/
theorem mutate_rate_zero_witness :
    ((∀ k : ℕ, (0:ℚ) < (fun _ => (1:ℚ)/2) k)
      ∧ makeMutatedCopy c7Parent 0 [1, 1, 1, 1] (fun _ => 1/2) (fun _ => 0)
          = Except.ok c7Parent)
    ∧ (c7Parent.genotypeMatrix = c7Parent.genotypeMatrix
      ∧ c7Parent.sparsity = c7Parent.sparsity ∧ c7Parent.age = c7Parent.age) := by
  have hfs : ∀ k : ℕ, (0:ℚ) < (fun _ => (1:ℚ)/2) k := fun _ => by norm_num
  have heval : makeMutatedCopy c7Parent 0 [1, 1, 1, 1] (fun _ => 1/2) (fun _ => 0)
      = Except.ok c7Parent := by
    unfold makeMutatedCopy
    rw [mutateCells_skip 0 [1, 1, 1, 1] (fun _ => (1:ℚ)/2) (fun _ => 0)
        c7Parent.numNodes hfs (cellIndices c7Parent.numNodes)
        c7Parent.genotypeMatrix 0 0]
    show mkOrganism c7Parent.numNodes
        (if (fun _ => (1:ℚ)/2) (0 + (cellIndices c7Parent.numNodes).length) > 0
          then c7Parent.sparsity
          else clamp01 (c7Parent.sparsity
            + (fun _ => (1:ℚ)/2) (0 + (cellIndices c7Parent.numNodes).length + 1) / 4 - 1/8))
        c7Parent.weightRange c7Parent.genotypeMatrix c7Parent.age = Except.ok c7Parent
    rw [if_pos (by norm_num)]
    exact mkOrganism_c7_eval
  exact ⟨⟨hfs, heval⟩,
    mutate_rate_zero c7Parent [1, 1, 1, 1] (fun _ => 1/2) (fun _ => 0) hfs c7Parent heval⟩

/-- The organism produced by mutating `c7Parent` when every draw is exactly
`0.0`: the single cell is point-mutated to `0` and the sparsity drifts to
`clamp01(1/2 + 0/4 − 1/8) = 3/8`; its adjacency entry saturates to `−1`. -/
def c7Mutated : Organism :=
  { numNodes := 1
    sparsity := 3/8
    weightRange := (-1, 1)
    genotypeMatrix := [[0]]
    adjacencyMatrix := [[-1]]
    age := 3
    clock := -1
    valid := true
    numInteractions := 1
    numPositive := 0
    numNegative := 1 }

/-- Evaluation: the child built from the mutated genome `[[0]]`. -/
theorem mkOrganism_c7mut_eval : mkOrganism 1 (3/8) (-1, 1) [[0]] 3 = Except.ok c7Mutated := by
  have hsp : sparsifyE 0 (3/8) (-1, 1) = Except.ok (-1) := by
    simp only [sparsifyE]
    norm_num
  have hmap : mapRowsE (3/8) (-1, 1) [[(0:ℚ)]] = Except.ok [[-1]] := by
    simp only [mapRowsE, mapRowE, hsp]
    norm_num [round3]
  simp only [mkOrganism, hmap, c7Mutated, Except.ok.injEq, Organism.mk.injEq]
  norm_num

/-- C7 counterexample: `random()` can return exactly `0.0`, and Python's
guard is `random() <= mutationRate`, so with `mutationRate = 0` and every
draw `0.0` the single cell IS point-mutated (to the next draw, `0`) and the
sparsity drifts to `3/8`: the claim's "for every sequence of random draws"
fails — the genome and the sparsity both change. -/
theorem mutate_rate_zero_counterexample :
    makeMutatedCopy c7Parent 0 [1, 0, 0, 0] (fun _ => 0) (fun _ => 0)
      = Except.ok c7Mutated
    ∧ c7Mutated.genotypeMatrix ≠ c7Parent.genotypeMatrix
    ∧ c7Mutated.sparsity ≠ c7Parent.sparsity := by
  have hcell : mutateCell 0 [1, 0, 0, 0] (fun _ => (0:ℚ)) (fun _ => 0) 1 0 0
      ([[1/2]], 0, 0) = Except.ok ([[0]], 2, 1) := by
    simp only [mutateCell, set2, get2]
    norm_num
  have hcells : mutateCells 0 [1, 0, 0, 0] (fun _ => (0:ℚ)) (fun _ => 0) 1
      [(0, 0)] ([[1/2]], 0, 0) = Except.ok ([[0]], 2, 1) := by
    simp only [mutateCells, hcell]
  have hidx : cellIndices 1 = [(0, 0)] := by decide
  refine ⟨?_, by simp [c7Mutated, c7Parent], by norm_num [c7Mutated, c7Parent]⟩
  unfold makeMutatedCopy
  rw [show c7Parent.numNodes = 1 from rfl, hidx,
      show c7Parent.genotypeMatrix = [[(1:ℚ)/2]] from rfl, hcells]
  show mkOrganism 1
      (if (fun _ => (0:ℚ)) 2 > 0 then c7Parent.sparsity
        else clamp01 (c7Parent.sparsity + (fun _ => (0:ℚ)) (2 + 1) / 4 - 1/8))
      c7Parent.weightRange [[0]] c7Parent.age = Except.ok c7Mutated
  rw [if_neg (by norm_num)]
  rw [show clamp01 (c7Parent.sparsity + (fun _ => (0:ℚ)) (2 + 1) / 4 - 1/8) = 3/8 by
    norm_num [clamp01, c7Parent]]
  exact mkOrganism_c7mut_eval

/-- Read of `adjacencyMatrix[i][j]`, total via `getD` (the traversal only
indexes with `currentNode < N` and `i < N`, in range for the square
matrices organisms carry). -/
def adjGet (adj : List (List ℚ)) (i j : ℕ) : ℚ := (adj.getD i []).getD j 0

/-- The candidate recomputation of `xover_traversal_helper` (organism.py
lines 130–133 and 140–143): successors of the active node by a nonzero
edge, excluding nodes already visited or completed. -/
def recomputeAvailable (adj : List (List ℚ)) (N current : ℕ)
    (visited completed : List ℕ) : List ℕ :=
  (List.range N).filter (fun i =>
    decide (adjGet adj current i ≠ 0) && !(visited.contains i) && !(completed.contains i))

/-- The frontier pop (organism.py lines 136–139): `visited.pop()` for DFS
(most recent) and `visited.popleft()` for BFS (oldest); returns the popped
node and the remaining frontier.  Callers only pop a nonempty frontier, so
the `getD`-style defaults are never observed. -/
def traversalPop (alg : String) (visited : List ℕ) : ℕ × List ℕ :=
  if alg = "DFS" then (visited.getLastD 0, visited.dropLast)
  else (visited.headD 0, visited.tail)

/-- The inner `while not available and len(completed) < N and visited` loop
(organism.py lines 134–143), fuel-bounded: each iteration moves the active
node into `completed` and pops a new one, so the loop runs at most
`len(visited) ≤ N` times and fuel `N + 1` is never exhausted before the
guard fails. -/
def innerLoop (adj : List (List ℚ)) (N : ℕ) (alg : String) :
    ℕ → ℕ → List ℕ → List ℕ → List ℕ → List ℕ × List ℕ × List ℕ
  | 0, _current, visited, completed, available => (visited, completed, available)
  | fuel + 1, current, visited, completed, available =>
      if available = [] ∧ completed.length < N ∧ visited ≠ [] then
        let completed' := completed ++ [current]
        let p := traversalPop alg visited
        let available' := recomputeAvailable adj N p.1 p.2 completed'
        innerLoop adj N alg fuel p.1 p.2 completed' available'
      else (visited, completed, available)

/-- The outer `while random() <= rateFromOther and len(completed) < N and
available` loop (organism.py lines 127–143), fuel-bounded: each pass
appends to the frontier a node not yet visited or completed, so at most `N`
passes occur and fuel `N + 1` is never exhausted before the guard fails.
`fs k` is the `random()` draw and `picks k` selects `sample(available,
k=1)[0]` as the element at position `picks k % len(available)`. -/
def outerLoop (adj : List (List ℚ)) (N : ℕ) (alg : String) (rate : ℚ)
    (fs : ℕ → ℚ) (picks : ℕ → ℕ) :
    ℕ → ℕ → List ℕ → List ℕ → List ℕ → List ℕ × List ℕ
  | 0, _k, visited, completed, _available => (visited, completed)
  | fuel + 1, k, visited, completed, available =>
      if fs k ≤ rate ∧ completed.length < N ∧ available ≠ [] then
        let current := available.getD (picks k % available.length) 0
        let visited' := visited ++ [current]
        let avail1 := recomputeAvailable adj N current visited' completed
        let r := innerLoop adj N alg (N + 1) current visited' completed avail1
        outerLoop adj N alg rate fs picks fuel (k + 1) r.1 r.2.1 r.2.2
      else (visited, completed)

/-- Embeds `xover_traversal_helper` (organism.py lines 118–144): `gLen` is
`len(other.genotypeMatrix)` and `adj` is `other.adjacencyMatrix` (same
shape).  An algorithm other than DFS/BFS raises; otherwise the function
returns `list(visited) + completed` after the loops. -/
def xover_traversal_helper (gLen : ℕ) (adj : List (List ℚ)) (alg : String)
    (rate : ℚ) (fs : ℕ → ℚ) (picks : ℕ → ℕ) : Except String (List ℕ) :=
  if alg = "DFS" ∨ alg = "BFS" then
    let r := outerLoop adj gLen alg rate fs picks (gLen + 1) 0 [] [] (List.range gLen)
    Except.ok (r.1 ++ r.2)
  else Except.error "invalid traversal algorithm"

/-- Every candidate is a node index below `N`. -/
theorem recomputeAvailable_lt (adj : List (List ℚ)) (N current : ℕ)
    (visited completed : List ℕ) :
    ∀ x ∈ recomputeAvailable adj N current visited completed, x < N := by
  intro x hx
  have := List.mem_range.mp (List.mem_of_mem_filter hx)
  exact this

/-- The element `sample` picks is a member of the candidate list. -/
theorem getD_mod_mem (l : List ℕ) (k : ℕ) (h : l ≠ []) :
    l.getD (k % l.length) 0 ∈ l := by
  have hlen : 0 < l.length := List.length_pos.mpr h
  have hlt : k % l.length < l.length := Nat.mod_lt _ hlen
  rw [List.getD_eq_getElem?_getD, List.getElem?_eq_getElem hlt]
  exact List.getElem_mem hlt

/-- The head default read is a member of a nonempty list. -/
theorem headD_mem (l : List ℕ) (h : l ≠ []) : l.headD 0 ∈ l := by
  cases l with
  | nil => exact absurd rfl h
  | cons a t => exact List.mem_cons_self a t

/-- The last default read is a member of a nonempty list. -/
theorem getLastD_mem (l : List ℕ) (h : l ≠ []) : l.getLastD 0 ∈ l := by
  cases l with
  | nil => exact absurd rfl h
  | cons a t =>
      rw [List.getLastD_cons]
      exact List.getLastD_mem_cons t a

/-- The popped node was on the frontier and the remaining frontier is a
sub-collection of it. -/
theorem traversalPop_mem (alg : String) (visited : List ℕ) (h : visited ≠ []) :
    (traversalPop alg visited).1 ∈ visited
    ∧ ∀ x ∈ (traversalPop alg visited).2, x ∈ visited := by
  unfold traversalPop
  split_ifs
  · exact ⟨getLastD_mem visited h, fun x hx => List.dropLast_subset visited hx⟩
  · exact ⟨headD_mem visited h, fun x hx => List.mem_of_mem_tail hx⟩

/-- The inner loop preserves the invariant that every tracked node index is
below `N`. -/
theorem innerLoop_lt (adj : List (List ℚ)) (N : ℕ) (alg : String) :
    ∀ (fuel current : ℕ) (visited completed available : List ℕ),
      (∀ x ∈ visited, x < N) → (∀ x ∈ completed, x < N) → current < N →
      (∀ x ∈ available, x < N) →
      (∀ x ∈ (innerLoop adj N alg fuel current visited completed available).1, x < N)
      ∧ (∀ x ∈ (innerLoop adj N alg fuel current visited completed available).2.1, x < N)
      ∧ (∀ x ∈ (innerLoop adj N alg fuel current visited completed available).2.2, x < N)
          := by
  intro fuel
  induction fuel with
  | zero =>
      intro current visited completed available hv hc _hcur ha
      exact ⟨hv, hc, ha⟩
  | succ fuel ih =>
      intro current visited completed available hv hc hcur ha
      simp only [innerLoop]
      split_ifs with hg
      · obtain ⟨hp1, hp2⟩ := traversalPop_mem alg visited hg.2.2
        apply ih
        · exact fun x hx => hv x (hp2 x hx)
        · intro x hx
          rcases List.mem_append.mp hx with h1 | h1
          · exact hc x h1
          · rw [List.mem_singleton.mp h1]
            exact hcur
        · exact hv _ hp1
        · exact recomputeAvailable_lt adj N _ _ _
      · exact ⟨hv, hc, ha⟩

/-- The outer loop preserves the invariant that every tracked node index is
below `N`. -/
theorem outerLoop_lt (adj : List (List ℚ)) (N : ℕ) (alg : String) (rate : ℚ)
    (fs : ℕ → ℚ) (picks : ℕ → ℕ) :
    ∀ (fuel k : ℕ) (visited completed available : List ℕ),
      (∀ x ∈ visited, x < N) → (∀ x ∈ completed, x < N) →
      (∀ x ∈ available, x < N) →
      (∀ x ∈ (outerLoop adj N alg rate fs picks fuel k visited completed available).1, x < N)
      ∧ (∀ x ∈ (outerLoop adj N alg rate fs picks fuel k visited completed available).2, x < N)
          := by
  intro fuel
  induction fuel with
  | zero =>
      intro k visited completed available hv hc _ha
      exact ⟨hv, hc⟩
  | succ fuel ih =>
      intro k visited completed available hv hc ha
      simp only [outerLoop]
      split_ifs with hg
      · have hcur : available.getD (picks k % available.length) 0 ∈ available :=
          getD_mod_mem available (picks k) hg.2.2
        have hcurN : available.getD (picks k % available.length) 0 < N := ha _ hcur
        have hv' : ∀ x ∈ visited ++ [available.getD (picks k % available.length) 0], x < N := by
          intro x hx
          rcases List.mem_append.mp hx with h1 | h1
          · exact hv x h1
          · rw [List.mem_singleton.mp h1]
            exact hcurN
        have hinner := innerLoop_lt adj N alg (N + 1)
          (available.getD (picks k % available.length) 0)
          (visited ++ [available.getD (picks k % available.length) 0])
          completed
          (recomputeAvailable adj N (available.getD (picks k % available.length) 0)
            (visited ++ [available.getD (picks k % available.length) 0]) completed)
          hv' hc hcurN (recomputeAvailable_lt adj N _ _ _)
        exact ih (k + 1) _ _ _ hinner.1 hinner.2.1 hinner.2.2
      · exact ⟨hv, hc⟩

/-- C2 amended: for every adjacency matrix, valid algorithm selector and
sequence of draws, the traversal sampler returns the frontier contents
followed by the completed list, and every entry of the returned list is a
node index in `0..N−1`; a node index MAY however appear more than once (the
completed portion can double-count a node when the frontier drains through
it), so the result is not always duplicate-free. -/
theorem traversal_nodes_in_range (gLen : ℕ) (adj : List (List ℚ)) (alg : String)
    (rate : ℚ) (fs : ℕ → ℚ) (picks : ℕ → ℕ) (l : List ℕ)
    (h : xover_traversal_helper gLen adj alg rate fs picks = Except.ok l) :
    ∀ x ∈ l, x < gLen := by
  simp only [xover_traversal_helper] at h
  split_ifs at h with halg
  injection h with h2
  subst h2
  intro x hx
  have hrange : ∀ y ∈ List.range gLen, y < gLen := fun y hy => List.mem_range.mp hy
  have ho := outerLoop_lt adj gLen alg rate fs picks (gLen + 1) 0 [] []
    (List.range gLen) (by simp) (by simp) hrange
  rcases List.mem_append.mp hx with h1 | h1
  · exact ho.1 x h1
  · exact ho.2 x h1

/-- C2 counterexample: on the 2-node graph with the single edge `0 → 1`,
DFS, `rateFromOther = 1` and draws that first sample node `0`, then node
`1`: the frontier drains through node `1` twice (it is appended to
`completed`, popped back as the active node, and appended again), so the
returned traversal order is `[1, 1]` — node `1` appears twice and node `0`
not at all, contradicting "each node index appears at most once". -/
theorem traversal_duplicate_counterexample :
    xover_traversal_helper 2 [[0, 1], [0, 0]] "DFS" 1 (fun _ => 0) (fun _ => 0)
      = Except.ok [1, 1]
    ∧ ¬ List.Nodup [1, 1] := by
  refine ⟨by decide, by decide⟩

/-- C2 witness: the amended in-range property on the concrete run that
returns `[1, 1]` over the 2-node graph. -/
theorem traversal_nodes_in_range_witness :
    xover_traversal_helper 2 [[0, 1], [0, 0]] "DFS" 1 (fun _ => 0) (fun _ => 0)
      = Except.ok [1, 1]
    ∧ (∀ x ∈ [1, 1], x < 2) := by
  have h : xover_traversal_helper 2 [[0, 1], [0, 0]] "DFS" 1 (fun _ => 0) (fun _ => 0)
      = Except.ok [1, 1] := by decide
  exact ⟨h, traversal_nodes_in_range 2 [[0, 1], [0, 0]] "DFS" 1
    (fun _ => 0) (fun _ => 0) [1, 1] h⟩

/-- Read of `other.genotypeMatrix[i]` (organism.py lines 165/170/175);
Python raises `IndexError` when `i` is out of range — which CAN happen when
the parents' sizes differ. -/
def getRowE (g : List (List ℚ)) (i : ℕ) : Except String (List ℚ) :=
  match g.get? i with
  | some r => Except.ok r
  | none => Except.error "IndexError"

/-- Write of `newGenome[i] = row`; Python raises `IndexError` out of
range. -/
def setRowE (g : List (List ℚ)) (i : ℕ) (r : List ℚ) : Except String (List (List ℚ)) :=
  if i < g.length then Except.ok (g.set i r) else Except.error "IndexError"

/-- The binary node crossover loop (organism.py lines 163–165): for each
row index of `self`, with probability `rateFromOther` replace the row by a
copy of `other`'s row.  State is `(genome, float-draw counter)`. -/
def binaryCross (otherG : List (List ℚ)) (rate : ℚ) (fs : ℕ → ℚ) :
    List ℕ → List (List ℚ) × ℕ → Except String (List (List ℚ) × ℕ)
  | [], st => Except.ok st
  | i :: rest, (g, fi) =>
      if fs fi ≤ rate then
        match getRowE otherG i with
        | Except.error e => Except.error e
        | Except.ok r =>
            match setRowE g i r with
            | Except.error e => Except.error e
            | Except.ok g' => binaryCross otherG rate fs rest (g', fi + 1)
      else binaryCross otherG rate fs rest (g, fi + 1)

/-- The row copying of the traversal-guided branches (organism.py lines
169–170 and 174–175): `newGenome[i] = deepcopy(other.genotypeMatrix[i])`
for each traversed node. -/
def copyRows (otherG : List (List ℚ)) : List ℕ → List (List ℚ) → Except String (List (List ℚ))
  | [], g => Except.ok g
  | i :: rest, g =>
      match getRowE otherG i with
      | Except.error e => Except.error e
      | Except.ok r =>
          match setRowE g i r with
          | Except.error e => Except.error e
          | Except.ok g' => copyRows otherG rest g'

/-- The strategy selection and genome recombination of
`makeCrossedCopyWith` (organism.py lines 156–175): `crossoverType =
randint(1, sum(crossOdds))` against the cumulative thresholds (the source
reads thresholds 0–2, i.e. a 3-tuple of odds); no matching branch leaves
the deep copy of `self`'s genome unchanged. -/
def crossGenome (self other : Organism) (rate : ℚ) (crossOdds : List ℕ)
    (ints : ℕ → ℕ) (fs : ℕ → ℚ) (picks : ℕ → ℕ) : Except String (List (List ℚ)) :=
  let crossoverType := 1 + ints 0 % crossOdds.sum
  if crossoverType ≤ (crossOdds.take 1).sum then
    match binaryCross other.genotypeMatrix rate fs (List.range self.numNodes)
        (self.genotypeMatrix, 0) with
    | Except.error e => Except.error e
    | Except.ok st => Except.ok st.1
  else if crossoverType ≤ (crossOdds.take 2).sum then
    match xover_traversal_helper other.genotypeMatrix.length other.adjacencyMatrix
        "DFS" rate fs picks with
    | Except.error e => Except.error e
    | Except.ok crossNodes => copyRows other.genotypeMatrix crossNodes self.genotypeMatrix
  else if crossoverType ≤ (crossOdds.take 3).sum then
    match xover_traversal_helper other.genotypeMatrix.length other.adjacencyMatrix
        "BFS" rate fs picks with
    | Except.error e => Except.error e
    | Except.ok crossNodes => copyRows other.genotypeMatrix crossNodes self.genotypeMatrix
  else Except.ok self.genotypeMatrix

/-- The per-parent age bookkeeping of `makeCrossedCopyWith` (organism.py
lines 148–154): one age increment per distinct generation, tracked by
`clock`. -/
def ageUpdated (o : Organism) (generation : ℤ) : Organism :=
  if o.clock < generation then { o with age := o.age + 1, clock := generation } else o

/-- Embeds `makeCrossedCopyWith` (organism.py lines 147–177).  The Python
method mutates both parents' `age`/`clock` in place and returns the child;
the model returns `(updated self, updated other, child)`.  `randint(1,
sum(crossOdds))` raises `ValueError` when the odds sum to zero.  NOTE: the
source contains no `numNodes` comparison whatsoever — no branch validates
the parents' sizes. -/
def makeCrossedCopyWith (self other : Organism) (rateFromOther : ℚ)
    (crossOdds : List ℕ) (generation : ℤ) (fs : ℕ → ℚ) (ints picks : ℕ → ℕ) :
    Except String (Organism × Organism × Organism) :=
  let self' := ageUpdated self generation
  let other' := ageUpdated other generation
  if crossOdds.sum = 0 then Except.error "ValueError"
  else
    match crossGenome self other rateFromOther crossOdds ints fs picks with
    | Except.error e => Except.error e
    | Except.ok newGenome =>
        match mkOrganism self.numNodes self.sparsity self.weightRange newGenome
            (max self'.age other'.age) with
        | Except.error e => Except.error e
        | Except.ok child => Except.ok (self', other', child)

/-- `mapRowE` succeeds on every row when the output range is
non-degenerate. -/
theorem mapRowE_ok_exists (s : ℚ) (wr : ℚ × ℚ) (h : wr.2 + |wr.1| ≠ 0) :
    ∀ r : List ℚ, ∃ r', mapRowE s wr r = Except.ok r' := by
  intro r
  induction r with
  | nil => exact ⟨[], rfl⟩
  | cons v rest ih =>
      obtain ⟨ws, hws⟩ := ih
      have hv := sparsifyE_isOk v s wr h
      rcases hsv : sparsifyE v s wr with e | w
      · rw [hsv] at hv
        simp [Except.isOk, Except.toBool] at hv
      · exact ⟨round3 w :: ws, by simp only [mapRowE, hsv, hws]⟩

/-- `mapRowsE` succeeds on every genome when the output range is
non-degenerate. -/
theorem mapRowsE_ok_exists (s : ℚ) (wr : ℚ × ℚ) (h : wr.2 + |wr.1| ≠ 0) :
    ∀ g : List (List ℚ), ∃ adj, mapRowsE s wr g = Except.ok adj := by
  intro g
  induction g with
  | nil => exact ⟨[], rfl⟩
  | cons r rs ih =>
      obtain ⟨rs', hrs⟩ := ih
      obtain ⟨r', hr⟩ := mapRowE_ok_exists s wr h r
      exact ⟨r' :: rs', by simp only [mapRowsE, hr, hrs]⟩

/-- Construction always succeeds for a non-degenerate weight range. -/
theorem mkOrganism_isOk (n : ℕ) (s : ℚ) (wr : ℚ × ℚ) (g : List (List ℚ)) (a : ℕ)
    (h : wr.2 + |wr.1| ≠ 0) : (mkOrganism n s wr g a).isOk = true := by
  obtain ⟨adj, hadj⟩ := mapRowsE_ok_exists s wr h g
  unfold mkOrganism
  rw [hadj]
  rfl

/-- When every row draw exceeds the rate, binary crossover copies no rows. -/
theorem binaryCross_skip (otherG : List (List ℚ)) (rate : ℚ) (fs : ℕ → ℚ)
    (hfs : ∀ k, rate < fs k) :
    ∀ (idxs : List ℕ) (g : List (List ℚ)) (fi : ℕ),
      binaryCross otherG rate fs idxs (g, fi) = Except.ok (g, fi + idxs.length) := by
  intro idxs
  induction idxs with
  | nil => intro g fi; simp [binaryCross]
  | cons i rest ih =>
      intro g fi
      simp only [binaryCross]
      rw [if_neg (not_le.mpr (hfs fi)), ih g (fi + 1)]
      have h2 : fi + 1 + rest.length = fi + (i :: rest).length := by
        simp [List.length_cons]
        omega
      rw [h2]

/-- With `crossOdds = (c, 0, 0)`, `c > 0`, the uniform-per-row strategy is
always selected, and when every row draw exceeds `rateFromOther` the
recombined genome is `self`'s genome unchanged. -/
theorem crossGenome_binary_skip (self other : Organism) (rate : ℚ) (c : ℕ)
    (ints : ℕ → ℕ) (fs : ℕ → ℚ) (picks : ℕ → ℕ)
    (hc : 0 < c) (hfs : ∀ k, rate < fs k) :
    crossGenome self other rate [c, 0, 0] ints fs picks = Except.ok self.genotypeMatrix := by
  have hsel : 1 + ints 0 % ([c, 0, 0] : List ℕ).sum ≤ (([c, 0, 0] : List ℕ).take 1).sum := by
    have hsum : ([c, 0, 0] : List ℕ).sum = c := by simp
    have htake : (([c, 0, 0] : List ℕ).take 1).sum = c := by simp
    rw [hsum, htake]
    have := Nat.mod_lt (ints 0) hc
    omega
  simp only [crossGenome]
  rw [if_pos hsel,
      binaryCross_skip other.genotypeMatrix rate fs hfs (List.range self.numNodes)
        self.genotypeMatrix 0]

/-- C1 amended: `makeCrossedCopyWith` performs no `numNodes` validation at
all: for any two parents whose `numNodes` differ (and any generation and
draw streams), a strategy draw selecting uniform-per-row crossover with all
row draws above `rateFromOther` produces a child — no invalid-argument
error is raised (errors can arise only incidentally, as `IndexError`s, when
a branch actually reads a row of `other` beyond its size). -/
theorem crossover_no_size_validation (self other : Organism) (rate : ℚ) (c : ℕ)
    (generation : ℤ) (fs : ℕ → ℚ) (ints picks : ℕ → ℕ)
    (hc : 0 < c) (hfs : ∀ k, rate < fs k)
    (hwr : self.weightRange.2 + |self.weightRange.1| ≠ 0)
    (hn : self.numNodes ≠ other.numNodes) :
    (makeCrossedCopyWith self other rate [c, 0, 0] generation fs ints picks).isOk
      = true := by
  have hsumne : ¬(([c, 0, 0] : List ℕ).sum = 0) := by
    simp
    omega
  simp only [makeCrossedCopyWith]
  rw [if_neg hsumne, crossGenome_binary_skip self other rate c ints fs picks hc hfs]
  have hok := mkOrganism_isOk self.numNodes self.sparsity self.weightRange
    self.genotypeMatrix
    (max (ageUpdated self generation).age (ageUpdated other generation).age) hwr
  rcases hmk : mkOrganism self.numNodes self.sparsity self.weightRange
      self.genotypeMatrix
      (max (ageUpdated self generation).age (ageUpdated other generation).age)
    with e | child
  · rw [hmk] at hok
    simp [Except.isOk, Except.toBool] at hok
  · simp only [hmk]
    rfl

/-- A concrete 2-node organism used as the second crossover parent. -/
def c1Other : Organism :=
  { numNodes := 2
    sparsity := 1/2
    weightRange := (-1, 1)
    genotypeMatrix := [[1/2, 1/2], [1/2, 1/2]]
    adjacencyMatrix := [[0, 0], [0, 0]]
    age := 0
    clock := -1
    valid := true
    numInteractions := 0
    numPositive := 0
    numNegative := 0 }

/-- C1 counterexample: crossing the 1-node parent `c7Parent` with the
2-node parent `c1Other` (uniform-per-row strategy, no rows copied) succeeds
and returns a child — no invalid-argument error is raised although the
parents' `numNodes` differ. -/
theorem crossover_mismatched_sizes_counterexample :
    c7Parent.numNodes ≠ c1Other.numNodes
    ∧ (makeCrossedCopyWith c7Parent c1Other 0 [1, 0, 0] 0
        (fun _ => 1/2) (fun _ => 0) (fun _ => 0)).isOk = true := by
  refine ⟨by decide, ?_⟩
  have hfs : ∀ k : ℕ, (0:ℚ) < (fun _ => (1:ℚ)/2) k := fun _ => by norm_num
  have hg := crossGenome_binary_skip c7Parent c1Other 0 1
    (fun _ => 0) (fun _ => 1/2) (fun _ => 0) (by decide) hfs
  have hsumne : ¬(([1, 0, 0] : List ℕ).sum = 0) := by decide
  simp only [makeCrossedCopyWith]
  rw [if_neg hsumne, hg]
  have hok := mkOrganism_isOk c7Parent.numNodes c7Parent.sparsity
    c7Parent.weightRange c7Parent.genotypeMatrix
    (max (ageUpdated c7Parent 0).age (ageUpdated c1Other 0).age)
    (by norm_num [c7Parent])
  rcases hmk : mkOrganism c7Parent.numNodes c7Parent.sparsity
      c7Parent.weightRange c7Parent.genotypeMatrix
      (max (ageUpdated c7Parent 0).age (ageUpdated c1Other 0).age)
    with e | child
  · rw [hmk] at hok
    simp [Except.isOk, Except.toBool] at hok
  · simp only [hmk]
    rfl

/-- C1 witness: the amended statement instantiated on `c7Parent` and
`c1Other` with `rateFromOther = 0` and all row draws `1/2`. -/
theorem crossover_no_size_validation_witness :
    (0 < 1 ∧ c7Parent.numNodes ≠ c1Other.numNodes)
    ∧ (makeCrossedCopyWith c7Parent c1Other 0 [1, 0, 0] 0
        (fun _ => 1/2) (fun _ => 0) (fun _ => 0)).isOk = true :=
  ⟨⟨by decide, by decide⟩,
    crossover_no_size_validation c7Parent c1Other 0 1 0
      (fun _ => 1/2) (fun _ => 0) (fun _ => 0)
      (by decide) (fun k => by norm_num) (by norm_num [c7Parent]) (by decide)⟩
